import Mathlib

/-!
# Verification of the memphis runtime core

A shallow embedding, in Lean 4, of the two source files of the repository:

* `src/treewalk/scope.rs` — the call-frame `Scope` and the argument binder
  (`Scope::new`), together with the pure storage operations
  (`get`, `insert`, `as_dict`, `from_dict`, directive sets);
* `src/treewalk/type_registry.rs` — the builtin type-system bootstrap
  (`type_class`, `object_class`, `init_type_classes`) and the `TypeRegistry`
  (`get_type_class`, `get_callable_builtin_types`).

Rust `HashMap`s are embedded as association lists with replace-on-insert
semantics; shared reference-counted containers carry no observable state of
their own here, so `Container<T>` is embedded as `T`.  Rust panics (the
`unwrap`s in `from_dict`, the `usize` underflow in the catch-all computation,
the missing-tag branch of `get_type_class`) are embedded as explicit failure
values.  Types external to the two files (`ResolvedArguments`, the parameter
list, the evaluator interface, the builtin method suppliers) are modelled from
the specification, as noted on each such definition.
-/

/-! ## Association-list primitives (embedding of `HashMap` operations) -/

/-- `HashMap::insert`: replace the binding of `key` if present, else append. -/
def assocInsert {α β : Type} [DecidableEq α] : List (α × β) → α → β → List (α × β)
  | [], key, value => [(key, value)]
  | (k, v) :: rest, key, value =>
    if k = key then (key, value) :: rest else (k, v) :: assocInsert rest key value

/-- `HashMap::get`: the value bound to `key`, if any. -/
def assocLookup {α β : Type} [DecidableEq α] : List (α × β) → α → Option β
  | [], _ => none
  | (k, v) :: rest, key => if k = key then some v else assocLookup rest key

/-- `HashMap::remove`: the value bound to `key` (if any), and the map without it. -/
def assocRemove {α β : Type} [DecidableEq α] : List (α × β) → α → Option β × List (α × β)
  | [], _ => (none, [])
  | (k, v) :: rest, key =>
    if k = key then (some v, rest)
    else
      let r := assocRemove rest key
      (r.1, (k, v) :: r.2)

theorem assocLookup_insert_self {α β : Type} [DecidableEq α]
    (l : List (α × β)) (key : α) (value : β) :
    assocLookup (assocInsert l key value) key = some value := by
  induction l with
  | nil => simp [assocInsert, assocLookup]
  | cons hd tl ih =>
    obtain ⟨k, v⟩ := hd
    by_cases h : k = key
    · simp [assocInsert, assocLookup, h]
    · simp [assocInsert, assocLookup, h, ih]

theorem assocLookup_insert_other {α β : Type} [DecidableEq α]
    (l : List (α × β)) (key key' : α) (value : β) (h : key' ≠ key) :
    assocLookup (assocInsert l key value) key' = assocLookup l key' := by
  have h2 : key ≠ key' := Ne.symm h
  induction l with
  | nil => simp [assocInsert, assocLookup, h2]
  | cons hd tl ih =>
    obtain ⟨k, v⟩ := hd
    by_cases hk : k = key
    · subst hk
      simp [assocInsert, assocLookup, h2]
    · simp only [assocInsert, if_neg hk]
      by_cases hk' : k = key'
      · simp [assocLookup, hk']
      · simp [assocLookup, hk', ih]

/-! ## Embedding of `src/treewalk/scope.rs` and the interfaces it consumes -/

/-- Modelled from the spec: a call-stack snapshot is an ordered sequence of
frame descriptors (`call_stack()`, §6); the individual frame descriptors are
opaque to this core and are abstracted as strings. -/
abbrev CallStack := List String

/-- The interpreter's string payload type `Str`, embedded as a Lean string. -/
abbrev Str := String

/-- The value type `ExprResult` of the interpreter, restricted to the variants
`scope.rs` constructs or inspects (`Void`, `Tuple`, `Dict`, `String`) plus a
representative ground value variant (`Integer`) for building test values.
`Container<Tuple>` / `Container<Dict>` carry only their
element sequences here. -/
inductive ExprResult where
  | Void
  | Integer (n : Int)
  | String (s : Str)
  | Tuple (items : List ExprResult)
  | Dict (items : List (ExprResult × ExprResult))

/-- `InterpreterError` — the two variants constructed by `scope.rs`, plus a
constructor `other` standing for every remaining variant of the (external)
error enum, which the binder only ever propagates unchanged. -/
inductive InterpreterError where
  | WrongNumberOfArguments (expected : Nat) (got : Nat) (stack : CallStack)
  | TypeError (message : Option String) (stack : CallStack)
  | other (code : Nat)
  deriving DecidableEq

/-- Modelled from the spec (§3, ParameterList): one parameter definition —
a name and an optional default expression.  Field names follow the uses in
`scope.rs` (`arg_definition.arg`, `arg_definition.default`).  The expression
type is abstract (`Expr`). -/
structure ParsedArgDefinition (Expr : Type) where
  arg : String
  default : Option Expr

/-- Modelled from the spec (§3, ParameterList): the declared parameters of a
function. Field names follow the uses in `scope.rs` (`function_args.args`,
`.args_var`, `.kwargs_var`). -/
structure ParameterList (Expr : Type) where
  args : List (ParsedArgDefinition Expr)
  args_var : Option String
  kwargs_var : Option String

/-- The parts of `Function` that `Scope::new` reads: `function.borrow().name`
and `function.borrow().args`. -/
structure Function (Expr : Type) where
  name : String
  args : ParameterList Expr

/-- Modelled from the spec (§3, ResolvedArguments): the already-evaluated
positional values (`bound_args()`, whose length is `bound_len()`), the total
argument count (`len()`), and the mapping of unconsumed keyword names to
values (`get_kwargs()`). -/
structure ResolvedArguments where
  bound_args : List ExprResult
  total_len : Nat
  kwargs : List (String × ExprResult)

/-- `ResolvedArguments::bound_len()`. -/
def ResolvedArguments.bound_len (a : ResolvedArguments) : Nat := a.bound_args.length

/-- `ResolvedArguments::len()`: the total argument count. -/
def ResolvedArguments.len (a : ResolvedArguments) : Nat := a.total_len

/-- `ResolvedArguments::get_kwargs()`, as the key/value pairs of the `Dict`
that `Scope::new` builds from it (keyword names become string keys). -/
def ResolvedArguments.get_kwargs (a : ResolvedArguments) : List (ExprResult × ExprResult) :=
  a.kwargs.map (fun p => (ExprResult.String p.1, p.2))

/-- Modelled from the spec (§6): the evaluator interface consumed by the
binder — `evaluate_expr` for default expressions and the call-stack snapshot
`interpreter.state.call_stack()`. -/
structure Interpreter (Expr : Type) where
  evaluate_expr : Expr → Except InterpreterError ExprResult
  call_stack : CallStack

/-- The `Scope` struct: symbol table plus the two directive sets. -/
structure Scope where
  symbol_table : List (String × ExprResult)
  global_vars : List String
  nonlocal_vars : List String

/-- `Scope::default()`: all three tables empty. -/
def Scope.empty : Scope := ⟨[], [], []⟩

/-- `Scope::get`. -/
def Scope.get (s : Scope) (name : String) : Option ExprResult :=
  assocLookup s.symbol_table name

/-- `Scope::symbols`. -/
def Scope.symbols (s : Scope) : List String :=
  s.symbol_table.map Prod.fst

/-- `Scope::delete`: the removed value and the updated scope. -/
def Scope.delete (s : Scope) (name : String) : Option ExprResult × Scope :=
  let r := assocRemove s.symbol_table name
  (r.1, { s with symbol_table := r.2 })

/-- `Scope::insert`. -/
def Scope.insert (s : Scope) (name : String) (value : ExprResult) : Scope :=
  { s with symbol_table := assocInsert s.symbol_table name value }

/-- `Scope::mark_global`. -/
def Scope.mark_global (s : Scope) (name : String) : Scope :=
  { s with global_vars := if name ∈ s.global_vars then s.global_vars else s.global_vars ++ [name] }

/-- `Scope::mark_nonlocal`. -/
def Scope.mark_nonlocal (s : Scope) (name : String) : Scope :=
  { s with nonlocal_vars :=
      if name ∈ s.nonlocal_vars then s.nonlocal_vars else s.nonlocal_vars ++ [name] }

/-- `Scope::has_global`. -/
def Scope.has_global (s : Scope) (name : String) : Prop :=
  name ∈ s.global_vars

/-- `Scope::has_nonlocal`. -/
def Scope.has_nonlocal (s : Scope) (name : String) : Prop :=
  name ∈ s.nonlocal_vars

/-- `Scope::from_hash`. -/
def Scope.from_hash (symbol_table : List (String × ExprResult)) : Scope :=
  ⟨symbol_table, [], []⟩

/-- `Scope::as_dict`: the symbol table as a string-keyed `Dict` value. -/
def Scope.as_dict (s : Scope) : List (ExprResult × ExprResult) :=
  s.symbol_table.map (fun p => (ExprResult.String p.1, p.2))

/-- `ExprResult::as_tuple` (partial accessor used by `from_dict`). -/
def ExprResult.as_tuple : ExprResult → Option (List ExprResult)
  | .Tuple items => some items
  | _ => none

/-- `ExprResult::as_string` (partial accessor used by `from_dict`). -/
def ExprResult.as_string : ExprResult → Option Str
  | .String s => some s
  | _ => none

/-- Modelled from the spec (§4.1): `Tuple::first` — pairs are 2-element tuple
values; absent elements are a process abort in the source, `none` here. -/
def tupleFirst (items : List ExprResult) : Option ExprResult :=
  items.get? 0

/-- Modelled from the spec (§4.1): `Tuple::second`. -/
def tupleSecond (items : List ExprResult) : Option ExprResult :=
  items.get? 1

/-- One iteration of the `from_dict` loop: destructure `item` as a 2-tuple,
its first element as a string key, its second as the value, and insert; any
failure (the source's `unwrap()` aborts) poisons the whole fold. -/
def from_dict_step (acc : Option (List (String × ExprResult))) (item : ExprResult) :
    Option (List (String × ExprResult)) :=
  acc.bind (fun table =>
    item.as_tuple.bind (fun tuple =>
      ((tupleFirst tuple).bind ExprResult.as_string).bind (fun key =>
        (tupleSecond tuple).map (fun value => assocInsert table key value))))

/-- `Scope::from_dict`.  `DictItems` is modelled from the spec as the sequence
of 2-element tuple values of a dict; the source's `unwrap()` aborts (non-tuple
element, non-string key, missing tuple element) are embedded as `none`. -/
def Scope.from_dict (dict : List ExprResult) : Option Scope :=
  (dict.foldl from_dict_step (some [])).map Scope.from_hash

/-- The conversion of a `Dict` value into its `DictItems` — modelled from the
spec (§4.1): each key/value pair becomes a 2-element tuple value. -/
def dictItems (d : List (ExprResult × ExprResult)) : List ExprResult :=
  d.map (fun p => ExprResult.Tuple [p.1, p.2])

/-- The outcome of `Scope::new`: a scope, an `InterpreterError`, or a Rust
panic (`panicked` — the `usize` underflow of the catch-all computation). -/
inductive RunResult where
  | ok (scope : Scope)
  | error (e : InterpreterError)
  | panicked

/-- The body of the positional/default binding loop of `Scope::new`
(`for (index, arg_definition) in function_args.args.iter().enumerate()`),
with the running scope, the `missing_args` accumulator, and — as a ghost
observer — the list `log` of the parameter indices whose default expression
has been evaluated, in evaluation order. -/
def bindLoop {Expr : Type} (interpreter : Interpreter Expr) (bound_args : List ExprResult) :
    List (ParsedArgDefinition Expr) → Nat → Scope → List String → List Nat →
    (Except InterpreterError (Scope × List String)) × List Nat
  | [], _, scope, missing_args, log => (.ok (scope, missing_args), log)
  | arg_definition :: rest, index, scope, missing_args, log =>
    if index < bound_args.length then
      bindLoop interpreter bound_args rest (index + 1)
        (scope.insert arg_definition.arg (bound_args.getD index ExprResult.Void))
        missing_args log
    else
      match arg_definition.default with
      | some default_value =>
        match interpreter.evaluate_expr default_value with
        | .ok value =>
            bindLoop interpreter bound_args rest (index + 1)
              (scope.insert arg_definition.arg value) missing_args (log ++ [index])
        | .error e => (.error e, log ++ [index])
      | none =>
        bindLoop interpreter bound_args rest (index + 1)
          (scope.insert arg_definition.arg ExprResult.Void)
          (missing_args ++ [arg_definition.arg]) log

/-- The exact `TypeError` message built by `Scope::new` for missing required
positional arguments. -/
def missingMessage (name : String) (missing_args : List String) : String :=
  let num_missing := missing_args.length
  let noun := if num_missing = 1 then "argument" else "arguments"
  let arg_names := String.intercalate " and " (missing_args.map (fun a => "'" ++ a ++ "'"))
  name ++ "() missing " ++ toString num_missing ++ " required positional " ++ noun ++ ": "
    ++ arg_names

/-- `Scope::new` — the argument binder.  The `usize` subtraction
`arguments.len() - function_args.args.len()` is embedded with Rust's
overflow-checked semantics: it panics when it would underflow. -/
def Scope.new {Expr : Type} (interpreter : Interpreter Expr) (function : Function Expr)
    (arguments : ResolvedArguments) : RunResult :=
  let function_args := function.args
  if function_args.args.length < arguments.bound_len ∧ function_args.args_var = none then
    .error (.WrongNumberOfArguments function_args.args.length arguments.bound_len
      interpreter.call_stack)
  else
    match (bindLoop interpreter arguments.bound_args function_args.args 0 Scope.empty [] []).1 with
    | .error e => .error e
    | .ok (scope, missing_args) =>
      if missing_args = [] then
        let afterArgsVar : RunResult :=
          match function_args.args_var with
          | some args_var =>
            if arguments.len < function_args.args.length then
              .panicked
            else
              let extra := arguments.len - function_args.args.length
              let left_over := (arguments.bound_args.reverse.take extra).reverse
              .ok (scope.insert args_var (ExprResult.Tuple left_over))
          | none => .ok scope
        match afterArgsVar with
        | .ok scope2 =>
          match function_args.kwargs_var with
          | some kwargs_var =>
              .ok (scope2.insert kwargs_var (ExprResult.Dict arguments.get_kwargs))
          | none => .ok scope2
        | r => r
      else
        .error (.TypeError (some (missingMessage function.name missing_args))
          interpreter.call_stack)

/-- Ghost observer of `Scope::new`: the parameter indices whose default
expression gets evaluated during the call, in evaluation order. -/
def defaultsLog {Expr : Type} (interpreter : Interpreter Expr) (function : Function Expr)
    (arguments : ResolvedArguments) : List Nat :=
  if function.args.args.length < arguments.bound_len ∧ function.args.args_var = none then []
  else (bindLoop interpreter arguments.bound_args function.args.args 0 Scope.empty [] []).2

/-! ## Embedding of `src/treewalk/type_registry.rs` -/

/-- The closed enumeration `Type` of builtin type identities (named `Ty` here
because `Type` is reserved in Lean; the `Type::Type` variant is written
`Ty.«Type»`). -/
inductive Ty where
  | «Type»
  | Object
  | TypeMeta
  | ObjectMeta
  | Super
  | GetSetDescriptor
  | MemberDescriptor
  | Method
  | Function
  | BuiltinFunction
  | BuiltinMethod
  | Generator
  | Coroutine
  | None
  | Ellipsis
  | NotImplemented
  | Bool
  | Int
  | Str
  | List
  | Set
  | FrozenSet
  | Zip
  | Tuple
  | Range
  | Slice
  | Complex
  | Bytes
  | ByteArray
  | Memoryview
  | Dict
  | DictItems
  | DictKeys
  | DictValues
  | MappingProxy
  | DictItemIterator
  | DictKeyIterator
  | DictValueIterator
  | BytesIterator
  | ByteArrayIterator
  | RangeIterator
  | StringIterator
  | ListIterator
  | ReversedIterator
  | SetIterator
  | TupleIterator
  | Exception
  | Traceback
  | Frame
  | Module
  | Cell
  | Code
  | Classmethod
  | Staticmethod
  | Property
  deriving DecidableEq

/-- An attribute value set on a class during bootstrap.  The method and
descriptor objects themselves are external black boxes (spec §6), each
exposing its own name; they are represented here by the `ExprResult` variant
the bootstrap wraps them in, together with that name. -/
inductive AttrVal where
  | BuiltinMethod (name : String)
  | NonDataDescriptor (name : String)
  | DataDescriptor (name : String)
  deriving DecidableEq

/-- The runtime `Class` object: type tag, metaclass link, parent-class list,
attribute table.  `Container<Class>` sharing carries no observable state
beyond the class value itself during bootstrap (every class is fully built
before it is shared), so classes are embedded as trees; all classes built by
the bootstrap have pairwise distinct tags, so structural equality coincides
with container identity for them. -/
inductive BClass where
  | mk (type_tag : Ty) (metaclass : Option BClass) (parents : List BClass)
      (attributes : List (String × AttrVal))

/-- The `type_tag` of a class (`Class::builtin_type`). -/
def BClass.type_tag : BClass → Ty
  | .mk t _ _ _ => t

/-- The metaclass link of a class. -/
def BClass.metaclass : BClass → Option BClass
  | .mk _ m _ _ => m

/-- The parent-class list of a class. -/
def BClass.parents : BClass → List BClass
  | .mk _ _ p _ => p

/-- The attribute table of a class. -/
def BClass.attributes : BClass → List (String × AttrVal)
  | .mk _ _ _ a => a

/-- `Class::new_builtin`: a fresh class with an empty attribute table. -/
def BClass.new_builtin (type_tag : Ty) (metaclass : Option BClass)
    (parents : List BClass) : BClass :=
  .mk type_tag metaclass parents []

/-- `Class::set_on_class`: set a named attribute on the class. -/
def BClass.set_on_class (c : BClass) (name : String) (value : AttrVal) : BClass :=
  match c with
  | .mk t m p attrs => .mk t m p (assocInsert attrs name value)

/-- A `for` loop attaching a sequence of named black-box objects to a class,
each under its own name (`set_on_class(&method.name(), ...)`). -/
def attachAll (c : BClass) (names : List String) (wrap : String → AttrVal) : BClass :=
  names.foldl (fun cls n => cls.set_on_class n (wrap n)) c

/-- The `for` loop of `object_class` that attaches every Object data
descriptor under the single literal name `__dict__` (the source's
`// TODO fix this STAT`). -/
def attachDataDescriptors (c : BClass) (names : List String) : BClass :=
  names.foldl (fun cls n => cls.set_on_class "__dict__" (AttrVal.DataDescriptor n)) c

/-- Modelled from the spec (§6): the external black-box method/descriptor
suppliers (`get_methods`, `get_descriptors`, `get_data_descriptors` of each
builtin type implementation), abstracted by the lists of names of the objects
they return. -/
structure MethodTables where
  objectMethods : List String
  objectDescriptors : List String
  objectDataDescriptors : List String
  typeMethods : List String
  typeDescriptors : List String
  methodsFor : Ty → List String
  descriptorsFor : Ty → List String

/-- The concrete supplier tables with every supplier returning nothing; used
as the sample instantiation for concrete evaluation. -/
def emptyTables : MethodTables :=
  ⟨[], [], [], [], [], fun _ => [], fun _ => []⟩

/-- `builtin_methods()`: the map from type tag to that type's builtin
methods, with exactly the source's 21 keys in source order. -/
def builtin_methods (T : MethodTables) : List (Ty × List String) :=
  [(Ty.Super, T.methodsFor Ty.Super),
   (Ty.Bool, T.methodsFor Ty.Bool),
   (Ty.Int, T.methodsFor Ty.Int),
   (Ty.Str, T.methodsFor Ty.Str),
   (Ty.List, T.methodsFor Ty.List),
   (Ty.Set, T.methodsFor Ty.Set),
   (Ty.FrozenSet, T.methodsFor Ty.FrozenSet),
   (Ty.Tuple, T.methodsFor Ty.Tuple),
   (Ty.Dict, T.methodsFor Ty.Dict),
   (Ty.Range, T.methodsFor Ty.Range),
   (Ty.Slice, T.methodsFor Ty.Slice),
   (Ty.Zip, T.methodsFor Ty.Zip),
   (Ty.ReversedIterator, T.methodsFor Ty.ReversedIterator),
   (Ty.Bytes, T.methodsFor Ty.Bytes),
   (Ty.Complex, T.methodsFor Ty.Complex),
   (Ty.ByteArray, T.methodsFor Ty.ByteArray),
   (Ty.Memoryview, T.methodsFor Ty.Memoryview),
   (Ty.Coroutine, T.methodsFor Ty.Coroutine),
   (Ty.Classmethod, T.methodsFor Ty.Classmethod),
   (Ty.Staticmethod, T.methodsFor Ty.Staticmethod),
   (Ty.Property, T.methodsFor Ty.Property)]

/-- `descriptors()`: the map from type tag to that type's non-data
descriptors, with exactly the source's 3 keys. -/
def descriptors (T : MethodTables) : List (Ty × List String) :=
  [(Ty.Function, T.descriptorsFor Ty.Function),
   (Ty.Exception, T.descriptorsFor Ty.Exception),
   (Ty.Traceback, T.descriptorsFor Ty.Traceback)]

/-- `all_types()`: every variant that gets a type class in the uniform pass
(`Type::Type` and `Type::Object` excluded), in source order. -/
def all_types : List Ty :=
  [Ty.Super,
   Ty.GetSetDescriptor,
   Ty.MemberDescriptor,
   Ty.Method,
   Ty.Function,
   Ty.BuiltinFunction,
   Ty.BuiltinMethod,
   Ty.Generator,
   Ty.Coroutine,
   Ty.None,
   Ty.Ellipsis,
   Ty.NotImplemented,
   Ty.Bool,
   Ty.Int,
   Ty.Str,
   Ty.List,
   Ty.Set,
   Ty.FrozenSet,
   Ty.Zip,
   Ty.Tuple,
   Ty.Range,
   Ty.Slice,
   Ty.Complex,
   Ty.Bytes,
   Ty.ByteArray,
   Ty.Memoryview,
   Ty.Dict,
   Ty.DictItems,
   Ty.DictKeys,
   Ty.DictValues,
   Ty.MappingProxy,
   Ty.DictItemIterator,
   Ty.DictKeyIterator,
   Ty.DictValueIterator,
   Ty.BytesIterator,
   Ty.ByteArrayIterator,
   Ty.RangeIterator,
   Ty.StringIterator,
   Ty.ListIterator,
   Ty.ReversedIterator,
   Ty.SetIterator,
   Ty.TupleIterator,
   Ty.Exception,
   Ty.Traceback,
   Ty.Frame,
   Ty.Module,
   Ty.Cell,
   Ty.Code,
   Ty.Classmethod,
   Ty.Staticmethod,
   Ty.Property]

/-- `callable_types()`: the types exposed as callable builtins, in source
order. -/
def callable_types : List Ty :=
  [Ty.«Type»,
   Ty.Object,
   Ty.Super,
   Ty.Bool,
   Ty.Int,
   Ty.Str,
   Ty.List,
   Ty.Dict,
   Ty.Set,
   Ty.FrozenSet,
   Ty.Tuple,
   Ty.Range,
   Ty.Slice,
   Ty.Complex,
   Ty.Bytes,
   Ty.ByteArray,
   Ty.Memoryview,
   Ty.Zip,
   Ty.ReversedIterator,
   Ty.Classmethod,
   Ty.Staticmethod,
   Ty.Property,
   Ty.Exception]

/-- The `object_base` placeholder of `type_class()`: tag `ObjectMeta`, no
metaclass, no parents, carrying Object's builtin methods. -/
def object_base (T : MethodTables) : BClass :=
  attachAll (BClass.new_builtin Ty.ObjectMeta none []) T.objectMethods AttrVal.BuiltinMethod

/-- The `type_base` placeholder of `type_class()`: tag `TypeMeta`, no
metaclass, no parents, carrying Type's builtin methods and descriptors. -/
def type_base (T : MethodTables) : BClass :=
  attachAll
    (attachAll (BClass.new_builtin Ty.TypeMeta none []) T.typeMethods AttrVal.BuiltinMethod)
    T.typeDescriptors AttrVal.NonDataDescriptor

/-- `type_class()`: the real `Type::Type` class — metaclass `type_base`,
parents `[object_base]`, with Type's methods and descriptors duplicated onto
it. -/
def type_class (T : MethodTables) : BClass :=
  attachAll
    (attachAll (BClass.new_builtin Ty.«Type» (some (type_base T)) [object_base T])
      T.typeMethods AttrVal.BuiltinMethod)
    T.typeDescriptors AttrVal.NonDataDescriptor

/-- `object_class(metaclass)`: the real `Type::Object` class — the given
metaclass, an empty parent list, Object's methods, non-data descriptors, and
data descriptors (each of the latter under the literal name `__dict__`). -/
def object_class (T : MethodTables) (metaclass : BClass) : BClass :=
  attachDataDescriptors
    (attachAll
      (attachAll (BClass.new_builtin Ty.Object (some metaclass) [])
        T.objectMethods AttrVal.BuiltinMethod)
      T.objectDescriptors AttrVal.NonDataDescriptor)
    T.objectDataDescriptors

/-- The loop body of the uniform pass of `init_type_classes`: build the class
for `type_` with metaclass `tc` and parents `[oc]`, transfer its builtin
methods and descriptors out of the two tables, and insert it into the
registry.  The accumulator is (registry, remaining methods table, remaining
descriptors table). -/
def bootstrap_step (tc oc : BClass)
    (acc : List (Ty × BClass) × List (Ty × List String) × List (Ty × List String))
    (type_ : Ty) :
    List (Ty × BClass) × List (Ty × List String) × List (Ty × List String) :=
  let cls := BClass.new_builtin type_ (some tc) [oc]
  let builtin_type := cls.type_tag
  let m := assocRemove acc.2.1 builtin_type
  let cls :=
    match m.1 with
    | some names => attachAll cls names AttrVal.BuiltinMethod
    | none => cls
  let d := assocRemove acc.2.2 builtin_type
  let cls :=
    match d.1 with
    | some names => attachAll cls names AttrVal.NonDataDescriptor
    | none => cls
  (assocInsert acc.1 builtin_type cls, m.2, d.2)

/-- `init_type_classes()`: build `Type::Type`, then `Type::Object`, then every
type in `all_types` uniformly, and return the registry map. -/
def init_type_classes (T : MethodTables) : List (Ty × BClass) :=
  let tc := type_class T
  let type_classes : List (Ty × BClass) := assocInsert [] Ty.«Type» tc
  let oc := object_class T tc
  let type_classes := assocInsert type_classes Ty.Object oc
  (all_types.foldl (bootstrap_step tc oc) (type_classes, builtin_methods T, descriptors T)).1

/-- The `TypeRegistry` struct. -/
structure TypeRegistry where
  type_classes : List (Ty × BClass)

/-- `TypeRegistry::new`. -/
def TypeRegistry.new (T : MethodTables) : TypeRegistry :=
  ⟨init_type_classes T⟩

/-- `TypeRegistry::get_type_class`; `none` embeds the panic branch taken for a
tag with no registry entry. -/
def TypeRegistry.get_type_class (r : TypeRegistry) (type_ : Ty) : Option BClass :=
  assocLookup r.type_classes type_

/-- `TypeRegistry::get_callable_builtin_types`: the classes of
`callable_types()`, in that order (`none` entries would mark the panic of the
underlying `get_type_class`). -/
def TypeRegistry.get_callable_builtin_types (r : TypeRegistry) : List (Option BClass) :=
  callable_types.map (fun callable_type => r.get_type_class callable_type)

/-! ## Structural lemmas about the bootstrap -/

theorem set_on_class_type_tag (c : BClass) (name : String) (value : AttrVal) :
    (c.set_on_class name value).type_tag = c.type_tag := by
  cases c; rfl

theorem set_on_class_metaclass (c : BClass) (name : String) (value : AttrVal) :
    (c.set_on_class name value).metaclass = c.metaclass := by
  cases c; rfl

theorem set_on_class_parents (c : BClass) (name : String) (value : AttrVal) :
    (c.set_on_class name value).parents = c.parents := by
  cases c; rfl

theorem attachAll_type_tag (names : List String) :
    ∀ (c : BClass) (wrap : String → AttrVal), (attachAll c names wrap).type_tag = c.type_tag := by
  induction names with
  | nil => intro c wrap; rfl
  | cons n rest ih =>
    intro c wrap
    simp only [attachAll, List.foldl_cons]
    rw [show (List.foldl (fun cls n => cls.set_on_class n (wrap n)) (c.set_on_class n (wrap n))
          rest) = attachAll (c.set_on_class n (wrap n)) rest wrap from rfl]
    rw [ih, set_on_class_type_tag]

theorem attachAll_metaclass (names : List String) :
    ∀ (c : BClass) (wrap : String → AttrVal), (attachAll c names wrap).metaclass = c.metaclass := by
  induction names with
  | nil => intro c wrap; rfl
  | cons n rest ih =>
    intro c wrap
    simp only [attachAll, List.foldl_cons]
    rw [show (List.foldl (fun cls n => cls.set_on_class n (wrap n)) (c.set_on_class n (wrap n))
          rest) = attachAll (c.set_on_class n (wrap n)) rest wrap from rfl]
    rw [ih, set_on_class_metaclass]

theorem attachAll_parents (names : List String) :
    ∀ (c : BClass) (wrap : String → AttrVal), (attachAll c names wrap).parents = c.parents := by
  induction names with
  | nil => intro c wrap; rfl
  | cons n rest ih =>
    intro c wrap
    simp only [attachAll, List.foldl_cons]
    rw [show (List.foldl (fun cls n => cls.set_on_class n (wrap n)) (c.set_on_class n (wrap n))
          rest) = attachAll (c.set_on_class n (wrap n)) rest wrap from rfl]
    rw [ih, set_on_class_parents]

theorem attachDataDescriptors_parents (names : List String) :
    ∀ (c : BClass), (attachDataDescriptors c names).parents = c.parents := by
  induction names with
  | nil => intro c; rfl
  | cons n rest ih =>
    intro c
    simp only [attachDataDescriptors, List.foldl_cons]
    rw [show (List.foldl (fun cls n => cls.set_on_class "__dict__" (AttrVal.DataDescriptor n))
          (c.set_on_class "__dict__" (AttrVal.DataDescriptor n)) rest)
        = attachDataDescriptors (c.set_on_class "__dict__" (AttrVal.DataDescriptor n)) rest
        from rfl]
    rw [ih, set_on_class_parents]

theorem attachDataDescriptors_type_tag (names : List String) :
    ∀ (c : BClass), (attachDataDescriptors c names).type_tag = c.type_tag := by
  induction names with
  | nil => intro c; rfl
  | cons n rest ih =>
    intro c
    simp only [attachDataDescriptors, List.foldl_cons]
    rw [show (List.foldl (fun cls n => cls.set_on_class "__dict__" (AttrVal.DataDescriptor n))
          (c.set_on_class "__dict__" (AttrVal.DataDescriptor n)) rest)
        = attachDataDescriptors (c.set_on_class "__dict__" (AttrVal.DataDescriptor n)) rest
        from rfl]
    rw [ih, set_on_class_type_tag]

theorem attachDataDescriptors_metaclass (names : List String) :
    ∀ (c : BClass), (attachDataDescriptors c names).metaclass = c.metaclass := by
  induction names with
  | nil => intro c; rfl
  | cons n rest ih =>
    intro c
    simp only [attachDataDescriptors, List.foldl_cons]
    rw [show (List.foldl (fun cls n => cls.set_on_class "__dict__" (AttrVal.DataDescriptor n))
          (c.set_on_class "__dict__" (AttrVal.DataDescriptor n)) rest)
        = attachDataDescriptors (c.set_on_class "__dict__" (AttrVal.DataDescriptor n)) rest
        from rfl]
    rw [ih, set_on_class_metaclass]

theorem type_base_type_tag (T : MethodTables) : (type_base T).type_tag = Ty.TypeMeta := by
  rw [type_base, attachAll_type_tag, attachAll_type_tag]; rfl

theorem type_class_type_tag (T : MethodTables) : (type_class T).type_tag = Ty.«Type» := by
  rw [type_class, attachAll_type_tag, attachAll_type_tag]; rfl

theorem type_class_metaclass (T : MethodTables) :
    (type_class T).metaclass = some (type_base T) := by
  rw [type_class, attachAll_metaclass, attachAll_metaclass]; rfl

theorem type_class_parents (T : MethodTables) :
    (type_class T).parents = [object_base T] := by
  rw [type_class, attachAll_parents, attachAll_parents]; rfl

theorem object_class_type_tag (T : MethodTables) (metaclass : BClass) :
    (object_class T metaclass).type_tag = Ty.Object := by
  rw [object_class, attachDataDescriptors_type_tag, attachAll_type_tag, attachAll_type_tag]; rfl

theorem object_class_metaclass (T : MethodTables) (metaclass : BClass) :
    (object_class T metaclass).metaclass = some metaclass := by
  rw [object_class, attachDataDescriptors_metaclass, attachAll_metaclass, attachAll_metaclass]; rfl

theorem object_class_parents (T : MethodTables) (metaclass : BClass) :
    (object_class T metaclass).parents = [] := by
  rw [object_class, attachDataDescriptors_parents, attachAll_parents, attachAll_parents]; rfl

/-- The shape every class built by the uniform pass has: its own tag, the real
Type class as metaclass, exactly the real Object class as parent. -/
def uniformClass (tc oc : BClass) (t : Ty) (c : BClass) : Prop :=
  c.type_tag = t ∧ c.metaclass = some tc ∧ c.parents = [oc]

theorem bootstrap_step_lookup_self (tc oc : BClass)
    (acc : List (Ty × BClass) × List (Ty × List String) × List (Ty × List String)) (t : Ty) :
    ∃ c, assocLookup (bootstrap_step tc oc acc t).1 t = some c ∧ uniformClass tc oc t c := by
  simp only [bootstrap_step, uniformClass]
  rcases hm : (assocRemove acc.2.1 (BClass.new_builtin t (some tc) [oc]).type_tag).1
    with _ | names1 <;>
  rcases hd : (assocRemove acc.2.2 (BClass.new_builtin t (some tc) [oc]).type_tag).1
    with _ | names2 <;>
  simp only [hm, hd] <;>
  refine ⟨_, assocLookup_insert_self _ _ _, ?_, ?_, ?_⟩ <;>
  (try simp only [attachAll_type_tag, attachAll_metaclass, attachAll_parents]) <;>
  rfl

theorem bootstrap_step_lookup_other (tc oc : BClass)
    (acc : List (Ty × BClass) × List (Ty × List String) × List (Ty × List String))
    (t t' : Ty) (h : t' ≠ t) :
    assocLookup (bootstrap_step tc oc acc t).1 t' = assocLookup acc.1 t' := by
  simp only [bootstrap_step]
  exact assocLookup_insert_other _ _ _ _ h

theorem bootstrap_fold_lookup_notmem (tc oc : BClass) (l : List Ty) :
    ∀ (acc : List (Ty × BClass) × List (Ty × List String) × List (Ty × List String)) (t : Ty),
      t ∉ l →
      assocLookup (l.foldl (bootstrap_step tc oc) acc).1 t = assocLookup acc.1 t := by
  induction l with
  | nil => intro acc t _; rfl
  | cons hd tl ih =>
    intro acc t ht
    simp only [List.foldl_cons]
    rw [ih _ t (fun hmem => ht (List.mem_cons_of_mem hd hmem))]
    exact bootstrap_step_lookup_other tc oc acc hd t
      (fun he => ht (he ▸ List.mem_cons_self hd tl))

theorem bootstrap_fold_lookup_mem (tc oc : BClass) (l : List Ty) :
    ∀ (acc : List (Ty × BClass) × List (Ty × List String) × List (Ty × List String)) (t : Ty),
      t ∈ l →
      ∃ c, assocLookup (l.foldl (bootstrap_step tc oc) acc).1 t = some c ∧ uniformClass tc oc t c := by
  induction l with
  | nil => intro acc t ht; exact absurd ht (List.not_mem_nil t)
  | cons hd tl ih =>
    intro acc t ht
    simp only [List.foldl_cons]
    by_cases hmem : t ∈ tl
    · exact ih _ t hmem
    · have hhd : t = hd := by
        rcases List.mem_cons.1 ht with h | h
        · exact h
        · exact absurd h hmem
      subst hhd
      rw [bootstrap_fold_lookup_notmem tc oc tl _ t hmem]
      exact bootstrap_step_lookup_self tc oc acc t

theorem init_lookup_type (T : MethodTables) :
    assocLookup (init_type_classes T) Ty.«Type» = some (type_class T) := by
  simp only [init_type_classes]
  rw [bootstrap_fold_lookup_notmem _ _ all_types _ _ (by decide)]
  rw [assocLookup_insert_other _ _ _ _ (by decide)]
  exact assocLookup_insert_self _ _ _

theorem init_lookup_object (T : MethodTables) :
    assocLookup (init_type_classes T) Ty.Object = some (object_class T (type_class T)) := by
  simp only [init_type_classes]
  rw [bootstrap_fold_lookup_notmem _ _ all_types _ _ (by decide)]
  exact assocLookup_insert_self _ _ _

theorem init_lookup_mem (T : MethodTables) (t : Ty) (h : t ∈ all_types) :
    ∃ c, assocLookup (init_type_classes T) t = some c ∧
      uniformClass (type_class T) (object_class T (type_class T)) t c := by
  simp only [init_type_classes]
  exact bootstrap_fold_lookup_mem _ _ all_types _ t h

theorem init_lookup_tag (T : MethodTables) (t : Ty) (h : t ∈ all_types) :
    (assocLookup (init_type_classes T) t).map BClass.type_tag = some t := by
  obtain ⟨c, hc, ht, _, _⟩ := init_lookup_mem T t h
  simp [hc, ht]

/-! ## Lemmas about the argument binder -/

theorem Scope.get_insert_self (s : Scope) (n : String) (v : ExprResult) :
    (s.insert n v).get n = some v :=
  assocLookup_insert_self _ _ _

theorem Scope.get_insert_other (s : Scope) (n n' : String) (v : ExprResult) (h : n' ≠ n) :
    (s.insert n v).get n' = s.get n' :=
  assocLookup_insert_other _ _ _ _ h

/-- The specification of the ghost evaluation log of the binding loop: the
indices (from `index` on) of the parameters whose default expression gets
evaluated, in order, cut short at the first failing evaluation. -/
def logSpec {Expr : Type} (interpreter : Interpreter Expr) (bound_args : List ExprResult) :
    List (ParsedArgDefinition Expr) → Nat → List Nat
  | [], _ => []
  | p :: rest, index =>
    if index < bound_args.length then logSpec interpreter bound_args rest (index + 1)
    else
      match p.default with
      | some d =>
        match interpreter.evaluate_expr d with
        | .ok _ => index :: logSpec interpreter bound_args rest (index + 1)
        | .error _ => [index]
      | none => logSpec interpreter bound_args rest (index + 1)

/-- The names, in declaration order, of the parameters (from `index` on) that
are covered neither by a bound positional argument nor by a default. -/
def missing_names {Expr : Type} (bound_len : Nat) :
    List (ParsedArgDefinition Expr) → Nat → List String
  | [], _ => []
  | p :: rest, index =>
    if index < bound_len then missing_names bound_len rest (index + 1)
    else
      match p.default with
      | some _ => missing_names bound_len rest (index + 1)
      | none => p.arg :: missing_names bound_len rest (index + 1)

theorem bindLoop_log {Expr : Type} (interpreter : Interpreter Expr)
    (bound_args : List ExprResult) (params : List (ParsedArgDefinition Expr)) :
    ∀ (index : Nat) (scope : Scope) (missing_args : List String) (log : List Nat),
      (bindLoop interpreter bound_args params index scope missing_args log).2
        = log ++ logSpec interpreter bound_args params index := by
  induction params with
  | nil =>
    intro index scope missing_args log
    simp [bindLoop, logSpec]
  | cons p rest ih =>
    intro index scope missing_args log
    by_cases h : index < bound_args.length
    · simp only [bindLoop, logSpec, if_pos h]
      exact ih _ _ _ _
    · rcases hd : p.default with _ | d
      · simp only [bindLoop, logSpec, if_neg h, hd]
        exact ih _ _ _ _
      · rcases he : interpreter.evaluate_expr d with e | v
        · simp only [bindLoop, logSpec, if_neg h, hd, he]
        · simp only [bindLoop, logSpec, if_neg h, hd, he]
          rw [ih _ _ _ _, List.append_assoc]
          rfl

theorem logSpec_mem {Expr : Type} (interpreter : Interpreter Expr)
    (bound_args : List ExprResult) (params : List (ParsedArgDefinition Expr)) :
    ∀ (index i : Nat), i ∈ logSpec interpreter bound_args params index →
      index ≤ i ∧ bound_args.length ≤ i ∧
        ∃ p d, params.get? (i - index) = some p ∧ p.default = some d := by
  induction params with
  | nil =>
    intro index i hi
    simp [logSpec] at hi
  | cons p rest ih =>
    intro index i hi
    by_cases h : index < bound_args.length
    · rw [logSpec, if_pos h] at hi
      obtain ⟨h1, h2, p', d, hp, hd⟩ := ih (index + 1) i hi
      refine ⟨by omega, h2, p', d, ?_, hd⟩
      have hix : i - index = (i - (index + 1)) + 1 := by omega
      rw [hix, List.get?_cons_succ]
      exact hp
    · rcases hd : p.default with _ | d
      · rw [logSpec, if_neg h] at hi
        simp only [hd] at hi
        obtain ⟨h1, h2, p', d', hp, hd'⟩ := ih (index + 1) i hi
        refine ⟨by omega, h2, p', d', ?_, hd'⟩
        have hix : i - index = (i - (index + 1)) + 1 := by omega
        rw [hix, List.get?_cons_succ]
        exact hp
      · rcases he : interpreter.evaluate_expr d with e | v
        · rw [logSpec, if_neg h] at hi
          simp only [hd, he, List.mem_singleton] at hi
          subst hi
          exact ⟨le_refl _, by omega, p, d, by simp, hd⟩
        · rw [logSpec, if_neg h] at hi
          simp only [hd, he, List.mem_cons] at hi
          rcases hi with hi | hi
          · subst hi
            exact ⟨le_refl _, by omega, p, d, by simp, hd⟩
          · obtain ⟨h1, h2, p', d', hp, hd'⟩ := ih (index + 1) i hi
            refine ⟨by omega, h2, p', d', ?_, hd'⟩
            have hix : i - index = (i - (index + 1)) + 1 := by omega
            rw [hix, List.get?_cons_succ]
            exact hp

theorem logSpec_nodup {Expr : Type} (interpreter : Interpreter Expr)
    (bound_args : List ExprResult) (params : List (ParsedArgDefinition Expr)) :
    ∀ (index : Nat), (logSpec interpreter bound_args params index).Nodup := by
  induction params with
  | nil => intro index; simp [logSpec]
  | cons p rest ih =>
    intro index
    by_cases h : index < bound_args.length
    · rw [logSpec, if_pos h]; exact ih _
    · rcases hd : p.default with _ | d
      · rw [logSpec, if_neg h]
        simp only [hd]
        exact ih _
      · rcases he : interpreter.evaluate_expr d with e | v
        · rw [logSpec, if_neg h]
          simp only [hd, he]
          simp
        · rw [logSpec, if_neg h]
          simp only [hd, he]
          refine List.nodup_cons.2 ⟨?_, ih _⟩
          intro hmem
          have := (logSpec_mem interpreter bound_args rest (index + 1) index hmem).1
          omega

theorem bindLoop_success {Expr : Type} (interpreter : Interpreter Expr)
    (bound_args : List ExprResult) (params : List (ParsedArgDefinition Expr)) :
    ∀ (index : Nat) (scope : Scope) (missing_args : List String) (log : List Nat),
      (∀ j p d, params.get? j = some p → bound_args.length ≤ index + j →
        p.default = some d → ∃ v, interpreter.evaluate_expr d = Except.ok v) →
      ∃ scope', (bindLoop interpreter bound_args params index scope missing_args log).1
        = Except.ok (scope', missing_args ++ missing_names bound_args.length params index) := by
  induction params with
  | nil =>
    intro index scope missing_args log _
    exact ⟨scope, by simp [bindLoop, missing_names]⟩
  | cons p rest ih =>
    intro index scope missing_args log hev
    have hshift : ∀ j q d, rest.get? j = some q → bound_args.length ≤ (index + 1) + j →
        q.default = some d → ∃ v, interpreter.evaluate_expr d = Except.ok v := by
      intro j q d hq hb hd
      exact hev (j + 1) q d (by rw [List.get?_cons_succ]; exact hq) (by omega) hd
    by_cases h : index < bound_args.length
    · simp only [bindLoop, missing_names, if_pos h]
      exact ih (index + 1) _ _ _ hshift
    · rcases hd : p.default with _ | d
      · simp only [bindLoop, missing_names, if_neg h, hd]
        obtain ⟨scope', hs⟩ := ih (index + 1)
          (scope.insert p.arg ExprResult.Void) (missing_args ++ [p.arg]) log hshift
        refine ⟨scope', ?_⟩
        rw [hs, List.append_assoc]
        rfl
      · obtain ⟨v, hv⟩ := hev 0 p d (by simp) (by omega) hd
        simp only [bindLoop, missing_names, if_neg h, hd, hv]
        exact ih (index + 1) _ _ _ hshift

theorem bindLoop_get_preserved {Expr : Type} (interpreter : Interpreter Expr)
    (bound_args : List ExprResult) (params : List (ParsedArgDefinition Expr)) :
    ∀ (index : Nat) (scope : Scope) (missing_args : List String) (log : List Nat)
      (scope' : Scope) (missing' : List String),
      (bindLoop interpreter bound_args params index scope missing_args log).1
        = Except.ok (scope', missing') →
      ∀ n, (∀ p, p ∈ params → p.arg ≠ n) → scope'.get n = scope.get n := by
  induction params with
  | nil =>
    intro index scope missing_args log scope' missing' h n _
    simp only [bindLoop] at h
    obtain ⟨h1, _⟩ := Prod.mk.injEq .. ▸ Except.ok.inj h
    rw [← h1]
  | cons p rest ih =>
    intro index scope missing_args log scope' missing' h n hn
    have hhd : p.arg ≠ n := hn p (List.mem_cons_self p rest)
    have htl : ∀ q, q ∈ rest → q.arg ≠ n := fun q hq => hn q (List.mem_cons_of_mem p hq)
    by_cases hb : index < bound_args.length
    · rw [bindLoop, if_pos hb] at h
      rw [ih _ _ _ _ _ _ h n htl]
      exact Scope.get_insert_other _ _ _ _ (Ne.symm hhd)
    · rcases hd : p.default with _ | d
      · rw [bindLoop, if_neg hb] at h
        simp only [hd] at h
        rw [ih _ _ _ _ _ _ h n htl]
        exact Scope.get_insert_other _ _ _ _ (Ne.symm hhd)
      · rcases he : interpreter.evaluate_expr d with e | v
        · rw [bindLoop, if_neg hb] at h
          simp only [hd, he] at h
          exact absurd h (by simp)
        · rw [bindLoop, if_neg hb] at h
          simp only [hd, he] at h
          rw [ih _ _ _ _ _ _ h n htl]
          exact Scope.get_insert_other _ _ _ _ (Ne.symm hhd)

theorem bindLoop_error {Expr : Type} (interpreter : Interpreter Expr)
    (bound_args : List ExprResult) (params : List (ParsedArgDefinition Expr)) :
    ∀ (index : Nat) (scope : Scope) (missing_args : List String) (log : List Nat)
      (i : Nat) (p : ParsedArgDefinition Expr) (d : Expr) (e : InterpreterError),
      params.get? i = some p → p.default = some d →
      interpreter.evaluate_expr d = Except.error e →
      bound_args.length ≤ index + i →
      (∀ j, j < i → ∀ q d', params.get? j = some q → bound_args.length ≤ index + j →
        q.default = some d' → ∃ v, interpreter.evaluate_expr d' = Except.ok v) →
      (bindLoop interpreter bound_args params index scope missing_args log).1
        = Except.error e := by
  induction params with
  | nil =>
    intro index scope missing_args log i p d e hp
    simp at hp
  | cons p0 rest ih =>
    intro index scope missing_args log i p d e hp hd he hb hprev
    cases i with
    | zero =>
      have hp0 : p0 = p := by
        rw [List.get?_cons_zero] at hp
        exact Option.some.inj hp
      subst hp0
      have hnb : ¬ index < bound_args.length := by omega
      rw [bindLoop, if_neg hnb]
      simp only [hd, he]
    | succ i' =>
      have hshift : ∀ j, j < i' → ∀ q d', rest.get? j = some q →
          bound_args.length ≤ (index + 1) + j → q.default = some d' →
          ∃ v, interpreter.evaluate_expr d' = Except.ok v := by
        intro j hj q d' hq hb' hd'
        exact hprev (j + 1) (by omega) q d' (by rw [List.get?_cons_succ]; exact hq)
          (by omega) hd'
      have hp' : rest.get? i' = some p := by
        rw [List.get?_cons_succ] at hp
        exact hp
      by_cases h : index < bound_args.length
      · rw [bindLoop, if_pos h]
        exact ih (index + 1) _ _ _ i' p d e hp' hd he (by omega) hshift
      · rcases hd0 : p0.default with _ | d0
        · rw [bindLoop, if_neg h]
          simp only [hd0]
          exact ih (index + 1) _ _ _ i' p d e hp' hd he (by omega) hshift
        · obtain ⟨v, hv⟩ := hprev 0 (Nat.succ_pos i') p0 d0 (by simp) (by omega) hd0
          rw [bindLoop, if_neg h]
          simp only [hd0, hv]
          exact ih (index + 1) _ _ _ i' p d e hp' hd he (by omega) hshift

theorem missing_names_mem {Expr : Type} (bound_len : Nat)
    (params : List (ParsedArgDefinition Expr)) :
    ∀ (index i : Nat) (p : ParsedArgDefinition Expr),
      params.get? i = some p → bound_len ≤ index + i → p.default = none →
      p.arg ∈ missing_names bound_len params index := by
  induction params with
  | nil =>
    intro index i p hp
    simp at hp
  | cons p0 rest ih =>
    intro index i p hp hb hd
    cases i with
    | zero =>
      have hp0 : p0 = p := by
        rw [List.get?_cons_zero] at hp
        exact Option.some.inj hp
      subst hp0
      have hnb : ¬ index < bound_len := by omega
      rw [missing_names, if_neg hnb]
      simp only [hd]
      exact List.mem_cons_self _ _
    | succ i' =>
      have hmem : p.arg ∈ missing_names bound_len rest (index + 1) :=
        ih (index + 1) i' p (by rw [List.get?_cons_succ] at hp; exact hp) (by omega) hd
      by_cases h : index < bound_len
      · rw [missing_names, if_pos h]; exact hmem
      · rcases hd0 : p0.default with _ | d0
        · rw [missing_names, if_neg h]
          simp only [hd0]
          exact List.mem_cons_of_mem _ hmem
        · rw [missing_names, if_neg h]
          simp only [hd0]
          exact hmem

theorem missing_names_nil {Expr : Type} (bound_len : Nat)
    (params : List (ParsedArgDefinition Expr)) :
    ∀ (index : Nat),
      (∀ j p, params.get? j = some p → bound_len ≤ index + j → (p.default).isSome) →
      missing_names bound_len params index = [] := by
  induction params with
  | nil => intro index _; rfl
  | cons p0 rest ih =>
    intro index h
    have hshift : ∀ j p, rest.get? j = some p → bound_len ≤ (index + 1) + j →
        (p.default).isSome := by
      intro j p hp hb
      exact h (j + 1) p (by rw [List.get?_cons_succ]; exact hp) (by omega)
    by_cases hb : index < bound_len
    · rw [missing_names, if_pos hb]
      exact ih _ hshift
    · rcases hd0 : p0.default with _ | d0
      · exfalso
        have := h 0 p0 (by simp) (by omega)
        rw [hd0] at this
        simp at this
      · rw [missing_names, if_neg hb]
        simp only [hd0]
        exact ih _ hshift

/-- `.rev().take(extra).rev()` is the trailing `extra` elements. -/
theorem reverse_take_reverse (l : List ExprResult) (n : Nat) :
    (l.reverse.take n).reverse = l.drop (l.length - n) := by
  rw [List.take_reverse, List.reverse_reverse]

/-! ## Claim theorems: type registry -/

/-- C1 (amended): after bootstrap completes, the class registered for the
Type tag is `type_class`, whose metaclass is the TypeMeta placeholder class
(carrying Type's methods and descriptors) and not the Type class itself; the
Object class has an empty parent list; and every builtin class built by the
uniform pass has metaclass equal to the real Type class and parent list
exactly [the real Object class]. -/
theorem bootstrap_invariant (T : MethodTables) :
    assocLookup (init_type_classes T) Ty.«Type» = some (type_class T)
    ∧ (type_class T).metaclass = some (type_base T)
    ∧ (type_base T).type_tag = Ty.TypeMeta
    ∧ (type_class T).metaclass ≠ some (type_class T)
    ∧ assocLookup (init_type_classes T) Ty.Object = some (object_class T (type_class T))
    ∧ (object_class T (type_class T)).parents = []
    ∧ (∀ t, t ∈ all_types →
        (assocLookup (init_type_classes T) t).map BClass.metaclass
            = some (some (type_class T))
        ∧ (assocLookup (init_type_classes T) t).map BClass.parents
            = some [object_class T (type_class T)]) := by
  refine ⟨init_lookup_type T, type_class_metaclass T, type_base_type_tag T, ?_,
    init_lookup_object T, object_class_parents T _, ?_⟩
  · intro hmeta
    rw [type_class_metaclass T] at hmeta
    have htag := congrArg BClass.type_tag (Option.some.inj hmeta)
    rw [type_base_type_tag, type_class_type_tag] at htag
    exact Ty.noConfusion htag
  · intro t ht
    obtain ⟨c, hc, _, hm, hp⟩ := init_lookup_mem T t ht
    rw [hc]
    exact ⟨by simp [hm], by simp [hp]⟩

/-- Witness for C1 at a concrete instantiation: the Integer class from the
uniform pass has metaclass Type and parents [Object]. -/
theorem bootstrap_invariant_witness :
    (assocLookup (init_type_classes emptyTables) Ty.Int).map BClass.metaclass
        = some (some (type_class emptyTables))
    ∧ (assocLookup (init_type_classes emptyTables) Ty.Int).map BClass.parents
        = some [object_class emptyTables (type_class emptyTables)] :=
  (bootstrap_invariant emptyTables).2.2.2.2.2.2 Ty.Int (by decide)

/-- Counterexample to C1 as stated: at the concrete bootstrap, the class
registered for the Type tag is `type_class`, but its metaclass is the
TypeMeta placeholder, not the Type class itself. -/
theorem bootstrap_invariant_counterexample :
    assocLookup (init_type_classes emptyTables) Ty.«Type» = some (type_class emptyTables)
    ∧ (type_class emptyTables).metaclass ≠ some (type_class emptyTables) := by
  refine ⟨init_lookup_type emptyTables, ?_⟩
  intro hmeta
  exact absurd (congrArg (Option.map BClass.type_tag) hmeta) (by decide)

/-- C6 (amended): `get_callable_builtin_types` returns the singleton classes
for exactly the tags of `callable_types` — type, object, super, boolean,
integer, string, list, dict, set, frozen-set, tuple, range, slice, complex,
bytes, bytearray, memoryview, zip, reversed-iterator, classmethod,
staticmethod, property, exception — in declared enumeration order. -/
theorem get_callable_builtin_types_tags (T : MethodTables) :
    ((TypeRegistry.new T).get_callable_builtin_types).map (Option.map BClass.type_tag)
      = callable_types.map some := by
  rw [TypeRegistry.get_callable_builtin_types, List.map_map]
  apply List.map_congr_left
  intro t ht
  simp only [Function.comp, TypeRegistry.new, TypeRegistry.get_type_class]
  rcases (by decide : ∀ x ∈ callable_types, x = Ty.«Type» ∨ x = Ty.Object ∨ x ∈ all_types)
    t ht with h | h | h
  · subst h
    rw [init_lookup_type]
    simp [type_class_type_tag]
  · subst h
    rw [init_lookup_object]
    simp [object_class_type_tag]
  · exact init_lookup_tag T t h

/-- The "callable types" enumeration exactly as the claim states it
(no super). -/
def claimed_callable_types : List Ty :=
  [Ty.«Type», Ty.Object, Ty.Bool, Ty.Int, Ty.Str, Ty.List, Ty.Dict, Ty.Set, Ty.FrozenSet,
   Ty.Tuple, Ty.Range, Ty.Slice, Ty.Complex, Ty.Bytes, Ty.ByteArray, Ty.Memoryview, Ty.Zip,
   Ty.ReversedIterator, Ty.Classmethod, Ty.Staticmethod, Ty.Property, Ty.Exception]

/-- Counterexample to C6 as stated: at the concrete bootstrap the tag
sequence of `get_callable_builtin_types` is the source's 23-element
enumeration, in which the Super class appears third; it is not the claim's
22-tag enumeration. -/
theorem get_callable_builtin_types_counterexample :
    ((TypeRegistry.new emptyTables).get_callable_builtin_types).map (Option.map BClass.type_tag)
        ≠ claimed_callable_types.map some
    ∧ ((TypeRegistry.new emptyTables).get_callable_builtin_types).map (Option.map BClass.type_tag)
        = callable_types.map some := by
  constructor
  · decide
  · decide

/-- C8: for every type tag in the closed `all_types` enumeration, and for the
Type and Object tags, `get_type_class` on a freshly constructed registry
finds an entry (never reaches its panic branch). -/
theorem get_type_class_total (T : MethodTables) (t : Ty)
    (h : t ∈ all_types ∨ t = Ty.«Type» ∨ t = Ty.Object) :
    ((TypeRegistry.new T).get_type_class t).isSome = true := by
  simp only [TypeRegistry.new, TypeRegistry.get_type_class]
  rcases h with h | h | h
  · obtain ⟨c, hc, _⟩ := init_lookup_mem T t h
    rw [hc]
    rfl
  · subst h
    rw [init_lookup_type]
    rfl
  · subst h
    rw [init_lookup_object]
    rfl

/-- Witness for C8 at a concrete instantiation and tag. -/
theorem get_type_class_total_witness :
    ((TypeRegistry.new emptyTables).get_type_class Ty.Int).isSome = true :=
  get_type_class_total emptyTables Ty.Int (Or.inl (by decide))

/-! ## Claim theorems: argument binder -/

/-- C3: for every call where the declared parameter count is smaller than the
bound positional count and no catch-all positional parameter is declared,
binding fails with `WrongNumberOfArguments(declared, bound, call_stack)` and
no Scope is returned. -/
theorem scope_new_wrong_number_of_arguments {Expr : Type} (interpreter : Interpreter Expr)
    (function : Function Expr) (arguments : ResolvedArguments)
    (h1 : function.args.args.length < arguments.bound_len)
    (h2 : function.args.args_var = none) :
    Scope.new interpreter function arguments =
      RunResult.error (InterpreterError.WrongNumberOfArguments function.args.args.length
        arguments.bound_len interpreter.call_stack) := by
  simp only [Scope.new]
  rw [if_pos ⟨h1, h2⟩]

def interpC3 : Interpreter Nat := ⟨fun _ => Except.ok ExprResult.Void, ["main"]⟩

def funC3 : Function Nat := ⟨"h", ⟨[⟨"a", none⟩, ⟨"b", none⟩], none, none⟩⟩

def argsC3 : ResolvedArguments :=
  ⟨[ExprResult.Integer 1, ExprResult.Integer 2, ExprResult.Integer 3], 3, []⟩

/-- Witness for C3: `h(a, b)` called with three positional arguments fails
with `WrongNumberOfArguments(2, 3, stack)`. -/
theorem scope_new_wrong_number_of_arguments_witness :
    Scope.new interpC3 funC3 argsC3 =
      RunResult.error (InterpreterError.WrongNumberOfArguments 2 3 ["main"]) :=
  scope_new_wrong_number_of_arguments interpC3 funC3 argsC3 (by decide) rfl

def interpC9 : Interpreter Nat := ⟨fun _ => Except.ok (ExprResult.Integer 1), []⟩

def funC9 : Function Nat := ⟨"f", ⟨[⟨"a", none⟩, ⟨"b", some 0⟩], some "args", none⟩⟩

def argsC9 : ResolvedArguments := ⟨[ExprResult.Integer 5], 1, []⟩

/-- C9: for the call `f(a, b=...)` with `*args` declared, one positional
argument bound and total argument count 1 < 2 declared parameters (the second
filled by its default), the unsigned subtraction
`arguments.len() - function_args.args.len()` underflows and `Scope::new`
panics instead of returning a Scope with an empty catch-all tuple. -/
theorem scope_new_catchall_underflow_panics :
    Scope.new interpC9 funC9 argsC9 = RunResult.panicked := rfl

/-- C2 (amended): for every call in which at least one declared parameter is
neither covered by a bound positional argument nor by a default expression —
provided that every default expression the binder does evaluate for the call
evaluates successfully — binding fails with a TypeError whose message is
exactly the one built by `missingMessage` over the missing parameter names in
declaration order: pluralized "argument" only for count > 1, names quoted and
joined by the literal " and ". -/
theorem scope_new_missing_args_type_error {Expr : Type} (interpreter : Interpreter Expr)
    (function : Function Expr) (arguments : ResolvedArguments)
    (hmiss : ∃ i p, function.args.args.get? i = some p
        ∧ arguments.bound_args.length ≤ i ∧ p.default = none)
    (heval : ∀ i p d, function.args.args.get? i = some p →
        arguments.bound_args.length ≤ i → p.default = some d →
        ∃ v, interpreter.evaluate_expr d = Except.ok v) :
    Scope.new interpreter function arguments =
      RunResult.error (InterpreterError.TypeError
        (some (missingMessage function.name
          (missing_names arguments.bound_args.length function.args.args 0)))
        interpreter.call_stack) := by
  obtain ⟨i, p, hp, hb, hd⟩ := hmiss
  have hilen : i < function.args.args.length := by
    by_contra hc
    rw [List.get?_eq_none.2 (by omega)] at hp
    exact Option.noConfusion hp
  have hpre : ¬ (function.args.args.length < arguments.bound_len
      ∧ function.args.args_var = none) := by
    intro hcon
    have hlen : arguments.bound_len = arguments.bound_args.length := rfl
    have := hcon.1
    omega
  obtain ⟨scope', hloop⟩ := bindLoop_success interpreter arguments.bound_args
    function.args.args 0 Scope.empty [] []
    (fun j q d hq hbj hd' => heval j q d hq (by omega) hd')
  have hne : ¬ missing_names arguments.bound_args.length function.args.args 0 = [] := by
    intro hnil
    have hm := missing_names_mem arguments.bound_args.length function.args.args 0 i p hp
      (by omega) hd
    rw [hnil] at hm
    exact List.not_mem_nil _ hm
  simp only [Scope.new, if_neg hpre, hloop, List.nil_append, if_neg hne]

def interpC2 : Interpreter Nat := ⟨fun _ => Except.ok ExprResult.Void, []⟩

def funC2 : Function Nat := ⟨"k", ⟨[⟨"a", none⟩, ⟨"b", none⟩, ⟨"c", none⟩], none, none⟩⟩

def argsC2 : ResolvedArguments := ⟨[ExprResult.Integer 1], 1, []⟩

/-- Witness for C2: `k(a, b, c)` called with one positional argument fails
with exactly the message `k() missing 2 required positional arguments:
'b' and 'c'`. -/
theorem scope_new_missing_args_type_error_witness :
    Scope.new interpC2 funC2 argsC2 =
      RunResult.error (InterpreterError.TypeError
        (some "k() missing 2 required positional arguments: 'b' and 'c'") []) :=
  scope_new_missing_args_type_error interpC2 funC2 argsC2
    ⟨1, ⟨"b", none⟩, rfl, by decide, rfl⟩
    (fun i p d hp hb hd => by
      have hmem : p ∈ funC2.args.args := List.get?_mem hp
      have hdn : p.default = none :=
        (by decide : ∀ q ∈ funC2.args.args, q.default = none) p hmem
      rw [hdn] at hd
      exact Option.noConfusion hd)

def interpC2x : Interpreter Nat := ⟨fun _ => Except.error (InterpreterError.other 7), []⟩

def funC2x : Function Nat := ⟨"f", ⟨[⟨"a", some 0⟩, ⟨"b", none⟩], none, none⟩⟩

def argsC2x : ResolvedArguments := ⟨[], 0, []⟩

/-- Counterexample to C2 as stated: in the call `f(a=<default>, b)` with no
arguments, parameter `b` is covered neither positionally nor by a default,
yet binding fails with the propagated default-evaluation error for `a`, not
with the claimed TypeError message. -/
theorem scope_new_missing_args_counterexample :
    (∃ i p, funC2x.args.args.get? i = some p ∧ argsC2x.bound_args.length ≤ i
        ∧ p.default = none)
    ∧ Scope.new interpC2x funC2x argsC2x = RunResult.error (InterpreterError.other 7)
    ∧ Scope.new interpC2x funC2x argsC2x ≠ RunResult.error (InterpreterError.TypeError
        (some "f() missing 1 required positional argument: 'b'") interpC2x.call_stack) := by
  refine ⟨⟨1, ⟨"b", none⟩, rfl, by decide, rfl⟩, rfl, ?_⟩
  intro h
  exact absurd (RunResult.error.inj h) (by decide)

/-- C4: in every call, a parameter's default expression is evaluated at most
once (the evaluation log has no duplicates), and only when the parameter has
no bound positional argument at its index (every logged index is past the
bound arguments, at a parameter that has a default); and if the first failing
default evaluation fails with `e`, the whole binding fails with exactly `e`
and no Scope is returned. -/
theorem scope_new_defaults_lazy {Expr : Type} (interpreter : Interpreter Expr)
    (function : Function Expr) (arguments : ResolvedArguments) :
    (defaultsLog interpreter function arguments).Nodup
    ∧ (∀ i, i ∈ defaultsLog interpreter function arguments →
        arguments.bound_args.length ≤ i
        ∧ ∃ p d, function.args.args.get? i = some p ∧ p.default = some d)
    ∧ (∀ i p d e, function.args.args.get? i = some p → p.default = some d →
        arguments.bound_args.length ≤ i →
        interpreter.evaluate_expr d = Except.error e →
        (∀ j, j < i → ∀ q d', function.args.args.get? j = some q →
          arguments.bound_args.length ≤ j → q.default = some d' →
          ∃ v, interpreter.evaluate_expr d' = Except.ok v) →
        Scope.new interpreter function arguments = RunResult.error e) := by
  refine ⟨?_, ?_, ?_⟩
  · rw [defaultsLog]
    split
    · exact List.nodup_nil
    · rw [bindLoop_log]
      simp only [List.nil_append]
      exact logSpec_nodup _ _ _ _
  · intro i hi
    rw [defaultsLog] at hi
    split at hi
    · simp at hi
    · rw [bindLoop_log] at hi
      simp only [List.nil_append] at hi
      obtain ⟨_, h2, p, d, hp, hd⟩ := logSpec_mem interpreter arguments.bound_args
        function.args.args 0 i hi
      rw [Nat.sub_zero] at hp
      exact ⟨h2, p, d, hp, hd⟩
  · intro i p d e hp hd hb he hprev
    have hilen : i < function.args.args.length := by
      by_contra hc
      rw [List.get?_eq_none.2 (by omega)] at hp
      exact Option.noConfusion hp
    have hpre : ¬ (function.args.args.length < arguments.bound_len
        ∧ function.args.args_var = none) := by
      intro hcon
      have hlen : arguments.bound_len = arguments.bound_args.length := rfl
      have := hcon.1
      omega
    have herr := bindLoop_error interpreter arguments.bound_args function.args.args
      0 Scope.empty [] [] i p d e hp hd he (by omega)
      (fun j hj q d' hq hb' hd' => hprev j hj q d' hq (by omega) hd')
    simp only [Scope.new, if_neg hpre, herr]

def interpC4 : Interpreter Nat := ⟨fun _ => Except.error (InterpreterError.other 3), ["f"]⟩

def funC4 : Function Nat := ⟨"w", ⟨[⟨"a", some 5⟩], none, none⟩⟩

def argsC4 : ResolvedArguments := ⟨[], 0, []⟩

/-- Witness for C4: `w(a=<failing default>)` called with no arguments fails
with exactly the default-evaluation error. -/
theorem scope_new_defaults_lazy_witness :
    Scope.new interpC4 funC4 argsC4 = RunResult.error (InterpreterError.other 3) :=
  (scope_new_defaults_lazy interpC4 funC4 argsC4).2.2 0 ⟨"a", some 5⟩ 5
    (InterpreterError.other 3) rfl rfl (by decide) rfl
    (fun j hj => absurd hj (Nat.not_lt_zero j))

/-- C5: for every call with declared parameter count k, total
positional-argument count j > k with at least j − k bound positional values,
a declared catch-all positional parameter (whose name the catch-all keyword
parameter, if any, does not shadow), and successfully evaluating defaults for
any uncovered parameters, binding succeeds and binds the catch-all name to
the tuple of exactly the trailing j − k bound positional values in their
original order. -/
theorem scope_new_catchall_capture {Expr : Type} (interpreter : Interpreter Expr)
    (function : Function Expr) (arguments : ResolvedArguments) (args_var : String)
    (hvar : function.args.args_var = some args_var)
    (hkw : ∀ s, function.args.kwargs_var = some s → s ≠ args_var)
    (hgt : function.args.args.length < arguments.total_len)
    (hextra : arguments.total_len - function.args.args.length ≤ arguments.bound_args.length)
    (hdefs : ∀ i p, function.args.args.get? i = some p →
        arguments.bound_args.length ≤ i →
        ∃ d v, p.default = some d ∧ interpreter.evaluate_expr d = Except.ok v) :
    ∃ scope, Scope.new interpreter function arguments = RunResult.ok scope ∧
      scope.get args_var = some (ExprResult.Tuple (arguments.bound_args.drop
        (arguments.bound_args.length
          - (arguments.total_len - function.args.args.length)))) := by
  have hpre : ¬ (function.args.args.length < arguments.bound_len
      ∧ function.args.args_var = none) := by
    intro hcon
    rw [hvar] at hcon
    exact Option.noConfusion hcon.2
  obtain ⟨scope', hloop⟩ := bindLoop_success interpreter arguments.bound_args
    function.args.args 0 Scope.empty [] []
    (fun j q d hq hbj hd' => by
      obtain ⟨d0, v, hd0, hv⟩ := hdefs j q hq (by omega)
      rw [hd0] at hd'
      cases Option.some.inj hd'
      exact ⟨v, hv⟩)
  have hnil : missing_names arguments.bound_args.length function.args.args 0 = [] := by
    apply missing_names_nil
    intro j q hq hbj
    obtain ⟨d0, v, hd0, _⟩ := hdefs j q hq (by omega)
    rw [hd0]
    rfl
  rw [hnil, List.append_nil] at hloop
  have hlt : ¬ arguments.len < function.args.args.length := by
    have : arguments.len = arguments.total_len := rfl
    omega
  cases hk : function.args.kwargs_var with
  | none =>
    refine ⟨scope'.insert args_var (ExprResult.Tuple
      ((arguments.bound_args.reverse.take
        (arguments.len - function.args.args.length)).reverse)), ?_, ?_⟩
    · simp only [Scope.new, if_neg hpre, hloop, hvar, hk, if_neg hlt]
      simp
    · rw [Scope.get_insert_self, reverse_take_reverse]
      rfl
  | some s =>
    have hs : s ≠ args_var := hkw s hk
    refine ⟨(scope'.insert args_var (ExprResult.Tuple
      ((arguments.bound_args.reverse.take
        (arguments.len - function.args.args.length)).reverse))).insert s
        (ExprResult.Dict arguments.get_kwargs), ?_, ?_⟩
    · simp only [Scope.new, if_neg hpre, hloop, hvar, hk, if_neg hlt]
      simp
    · rw [Scope.get_insert_other _ _ _ _ (Ne.symm hs), Scope.get_insert_self,
        reverse_take_reverse]
      rfl

def interpC5 : Interpreter Nat := ⟨fun _ => Except.ok (ExprResult.Integer 1), []⟩

def funC5 : Function Nat := ⟨"f", ⟨[⟨"a", none⟩, ⟨"b", some 1⟩], some "args", some "kwargs"⟩⟩

def argsC5 : ResolvedArguments :=
  ⟨[ExprResult.Integer 5, ExprResult.Integer 6, ExprResult.Integer 7, ExprResult.Integer 8], 4,
   [("x", ExprResult.Integer 9)]⟩

/-- Witness for C5: `f(a, b=1, *args, **kwargs)` called with positional
`(5, 6, 7, 8)` binds `args` to the trailing tuple `(7, 8)`. -/
theorem scope_new_catchall_capture_witness :
    ∃ scope, Scope.new interpC5 funC5 argsC5 = RunResult.ok scope ∧
      scope.get "args" = some (ExprResult.Tuple [ExprResult.Integer 7, ExprResult.Integer 8]) :=
  scope_new_catchall_capture interpC5 funC5 argsC5 "args" rfl
    (fun s hs => by
      cases Option.some.inj hs
      decide)
    (by decide) (by decide)
    (fun i p hp hb => by
      exfalso
      have h4 : (4 : Nat) ≤ i := hb
      have hnone : funC5.args.args.get? i = none := List.get?_eq_none.2 (by
        show funC5.args.args.length ≤ i
        calc funC5.args.args.length = 2 := rfl
          _ ≤ 4 := by omega
          _ ≤ i := h4)
      rw [hnone] at hp
      exact Option.noConfusion hp)

/-! ## Lemmas for the as_dict / from_dict round trip -/

theorem assocLookup_eq_none_of_not_mem {α β : Type} [DecidableEq α]
    (l : List (α × β)) (key : α) (h : key ∉ l.map Prod.fst) :
    assocLookup l key = none := by
  induction l with
  | nil => rfl
  | cons hd tl ih =>
    obtain ⟨k, v⟩ := hd
    rw [List.map_cons, List.mem_cons] at h
    push_neg at h
    rw [assocLookup, if_neg (fun he => h.1 he.symm)]
    exact ih h.2

theorem from_dict_step_pair (acc : List (String × ExprResult)) (k : String) (v : ExprResult) :
    from_dict_step (some acc) (ExprResult.Tuple [ExprResult.String k, v])
      = some (assocInsert acc k v) := rfl

theorem from_dict_fold (l : List (String × ExprResult)) :
    ∀ acc, List.foldl from_dict_step (some acc)
        (dictItems (l.map (fun p => (ExprResult.String p.1, p.2))))
      = some (l.foldl (fun t p => assocInsert t p.1 p.2) acc) := by
  induction l with
  | nil => intro acc; rfl
  | cons p rest ih =>
    intro acc
    rw [List.map_cons]
    rw [show dictItems ((ExprResult.String p.1, p.2)
          :: rest.map (fun p => (ExprResult.String p.1, p.2)))
        = ExprResult.Tuple [ExprResult.String p.1, p.2]
          :: dictItems (rest.map (fun p => (ExprResult.String p.1, p.2))) from rfl]
    rw [List.foldl_cons, from_dict_step_pair, ih, List.foldl_cons]

theorem foldl_insert_lookup (l : List (String × ExprResult)) :
    ∀ (acc : List (String × ExprResult)) (n : String), (l.map Prod.fst).Nodup →
      assocLookup (l.foldl (fun t p => assocInsert t p.1 p.2) acc) n
        = (assocLookup l n).or (assocLookup acc n) := by
  induction l with
  | nil =>
    intro acc n _
    rfl
  | cons hd rest ih =>
    intro acc n hnd
    obtain ⟨k, v⟩ := hd
    rw [List.map_cons, List.nodup_cons] at hnd
    obtain ⟨hknot, hrest⟩ := hnd
    rw [List.foldl_cons, ih _ n hrest]
    by_cases hn : k = n
    · subst hn
      rw [assocLookup_eq_none_of_not_mem rest k hknot]
      rw [show assocLookup ((k, v) :: rest) k = some v from by rw [assocLookup, if_pos rfl]]
      rw [assocLookup_insert_self]
      rfl
    · rw [assocLookup_insert_other _ _ _ _ (fun he => hn he.symm)]
      rw [show assocLookup ((k, v) :: rest) n = assocLookup rest n from by
        rw [assocLookup, if_neg hn]]

/-- C7: for every Scope whose symbol-table keys are distinct (as a HashMap's
always are), `from_dict` applied to the items of `as_dict` yields a Scope
whose `get` agrees with the original on every name, and whose global and
nonlocal directive sets are empty regardless of the original's. -/
theorem as_dict_from_dict_roundtrip (scope : Scope)
    (h : (scope.symbol_table.map Prod.fst).Nodup) :
    ∃ scope', Scope.from_dict (dictItems scope.as_dict) = some scope'
      ∧ (∀ name, scope'.get name = scope.get name)
      ∧ scope'.global_vars = [] ∧ scope'.nonlocal_vars = [] := by
  refine ⟨Scope.from_hash
    (scope.symbol_table.foldl (fun t p => assocInsert t p.1 p.2) []), ?_, ?_, rfl, rfl⟩
  · rw [Scope.from_dict, Scope.as_dict, from_dict_fold]
    rfl
  · intro name
    simp only [Scope.get, Scope.from_hash]
    rw [foldl_insert_lookup _ [] name h]
    rw [show assocLookup ([] : List (String × ExprResult)) name = none from rfl]
    exact Option.or_none

def scopeC7 : Scope :=
  ⟨[("x", ExprResult.Integer 1), ("y", ExprResult.String "a")], ["g"], ["n"]⟩

/-- Witness for C7: a scope with bindings x ↦ 1 and y ↦ "a" and nonempty
directive sets round-trips to a scope with the same bindings and empty
directive sets. -/
theorem as_dict_from_dict_roundtrip_witness :
    ∃ scope', Scope.from_dict (dictItems scopeC7.as_dict) = some scope'
      ∧ scope'.get "x" = some (ExprResult.Integer 1)
      ∧ scope'.get "y" = some (ExprResult.String "a")
      ∧ scope'.global_vars = [] ∧ scope'.nonlocal_vars = [] := by
  obtain ⟨scope', h1, h2, h3, h4⟩ := as_dict_from_dict_roundtrip scopeC7 (by decide)
  exact ⟨scope', h1, (h2 "x").trans rfl, (h2 "y").trans rfl, h3, h4⟩

/-- C10: for every call that supplies keyword arguments while the function
declares no catch-all keyword parameter, binding is entirely independent of
the keyword arguments (so it never fails, or changes outcome, on their
account), and every supplied keyword name matching neither a declared
parameter name nor the catch-all positional name is silently absent from the
resulting Scope's symbol table. -/
theorem scope_new_unmatched_kwargs_dropped {Expr : Type} (interpreter : Interpreter Expr)
    (function : Function Expr) (bound_args : List ExprResult) (total_len : Nat)
    (kwargs kwargs' : List (String × ExprResult))
    (hkw : function.args.kwargs_var = none) :
    Scope.new interpreter function ⟨bound_args, total_len, kwargs⟩
        = Scope.new interpreter function ⟨bound_args, total_len, kwargs'⟩
    ∧ (∀ scope kw, Scope.new interpreter function ⟨bound_args, total_len, kwargs⟩
          = RunResult.ok scope →
        (∃ v, (kw, v) ∈ kwargs) →
        (∀ p, p ∈ function.args.args → p.arg ≠ kw) →
        (∀ s, function.args.args_var = some s → s ≠ kw) →
        scope.get kw = none) := by
  constructor
  · simp only [Scope.new, ResolvedArguments.bound_len, ResolvedArguments.len, hkw]
  · intro scope kw hok hmem hparams hvar
    simp only [Scope.new, ResolvedArguments.bound_len, ResolvedArguments.len, hkw] at hok
    by_cases hpre : (function.args.args.length < bound_args.length
        ∧ function.args.args_var = none)
    · rw [if_pos hpre] at hok
      exact RunResult.noConfusion hok
    · rw [if_neg hpre] at hok
      rcases hloop : (bindLoop interpreter bound_args function.args.args 0 Scope.empty [] []).1
        with e | ⟨scope', missing'⟩
      · simp only [hloop] at hok
        exact RunResult.noConfusion hok
      · simp only [hloop] at hok
        have hpres : scope'.get kw = Scope.empty.get kw :=
          bindLoop_get_preserved interpreter bound_args function.args.args 0 Scope.empty [] []
            scope' missing' hloop kw hparams
        by_cases hm : missing' = []
        · rw [if_pos hm] at hok
          rcases hav : function.args.args_var with _ | av
          · simp only [hav] at hok
            obtain rfl := RunResult.ok.inj hok
            rw [hpres]
            rfl
          · simp only [hav] at hok
            by_cases hlt : total_len < function.args.args.length
            · rw [if_pos hlt] at hok
              exact RunResult.noConfusion hok
            · rw [if_neg hlt] at hok
              obtain rfl := RunResult.ok.inj hok
              rw [Scope.get_insert_other _ _ _ _ (Ne.symm (hvar av hav)), hpres]
              rfl
        · rw [if_neg hm] at hok
          exact RunResult.noConfusion hok

def interpC10 : Interpreter Nat := ⟨fun _ => Except.ok ExprResult.Void, []⟩

def funC10 : Function Nat := ⟨"g", ⟨[⟨"a", none⟩], none, none⟩⟩

/-- Witness for C10: `g(a)` called with one positional argument gives the
same binding outcome whether or not the unmatched keyword `z=9` is
supplied. -/
theorem scope_new_unmatched_kwargs_dropped_witness :
    Scope.new interpC10 funC10 ⟨[ExprResult.Integer 1], 1, [("z", ExprResult.Integer 9)]⟩
      = Scope.new interpC10 funC10 ⟨[ExprResult.Integer 1], 1, []⟩ :=
  (scope_new_unmatched_kwargs_dropped interpC10 funC10 [ExprResult.Integer 1] 1
    [("z", ExprResult.Integer 9)] [] rfl).1
